import Mathlib

/-!
Verification of the plan-execution core of `src/g11.py`: the sandboxed
filesystem action `execute_action`, the JSON response parsing inside
`agent_chat_response`, and the plan-execution loop with cooperative halt.

The embedding models:
* JSON values (`Json`) as produced by `json.loads`;
* POSIX-style paths as lists of components, with `pathlib`-style
  `joinpath` (`joinUnder`) and `resolve` (`resolveParts`);
* the filesystem as an association list from absolute paths to nodes;
* the halt flag as the sequence of values read at the top of each loop
  iteration (`halt : Nat → Bool`), one read per iteration, matching the
  single cooperative check the source performs;
* the external `json.loads` as a parameter `jp : String → Option Json`
  (`none` models a raised `json.JSONDecodeError`).
-/

/-- A JSON value as returned by `json.loads`. Numbers are modelled as
integers; no claim in scope depends on float behaviour. -/
inductive Json where
  | null
  | bool (b : Bool)
  | num (n : Int)
  | str (s : String)
  | arr (elems : List Json)
  | obj (fields : List (String × Json))

/-- Python truthiness of a JSON value (`if not x`). -/
def Json.truthy : Json → Bool
  | Json.null => false
  | Json.bool b => b
  | Json.num n => !(n == 0)
  | Json.str s => !(s == "")
  | Json.arr xs => !xs.isEmpty
  | Json.obj fs => !fs.isEmpty

/-- Truthiness of `dict.get`'s result: `None` (absent key) is falsy. -/
def optTruthy : Option Json → Bool
  | none => false
  | some v => Json.truthy v

/-- Python `x == "s"` where `x` is an arbitrary JSON value: true exactly
when `x` is the string `s`. -/
def isStrVal (v : Option Json) (s : String) : Bool :=
  match v with
  | some (Json.str t) => t == s
  | _ => false

/-- `d.get(k)` on a JSON object's field list. -/
def dictGet (fields : List (String × Json)) (k : String) : Option Json :=
  (fields.find? (fun f => f.1 == k)).map (fun f => f.2)

/-- How a JSON value renders inside a Python f-string. Lists and dicts are
abbreviated; no claim inspects those renderings. -/
def Json.render : Json → String
  | Json.null => "None"
  | Json.bool b => if b then "True" else "False"
  | Json.num n => toString n
  | Json.str s => s
  | Json.arr _ => "<list>"
  | Json.obj _ => "<dict>"

/-- Rendering of a `dict.get` result inside an f-string. -/
def optRender : Option Json → String
  | none => "None"
  | some v => Json.render v

/-! ## String helpers

Python's `str.split` and `str.strip`, implemented over `List Char` with
fuel-bounded structural recursion so that every use evaluates inside the
kernel. The fuel is always at least the input length plus one, and each
step consumes at least one character, so the fuel never runs out on the
arguments we pass. -/

/-- One pass of Python `s.split(sep)` for a non-empty `sep`: leftmost,
non-overlapping matches. `acc` holds the current piece reversed. -/
def chSplit (sep : List Char) : Nat → List Char → List Char → List (List Char)
  | 0, cs, acc => [acc.reverse ++ cs]
  | _ + 1, [], acc => [acc.reverse]
  | fuel + 1, c :: cs, acc =>
    if sep.isPrefixOf (c :: cs) then
      acc.reverse :: chSplit sep fuel (List.drop sep.length (c :: cs)) []
    else
      chSplit sep fuel cs (c :: acc)

/-- Python `s.split(sep)` (all splits, non-empty separator). -/
def pySplit (s : String) (sep : String) : List String :=
  (chSplit sep.toList (s.toList.length + 1) s.toList []).map String.mk

/-- Python `sep.join(xs)`. -/
def joinWith (sep : String) : List String → String
  | [] => ""
  | [x] => x
  | x :: y :: xs => x ++ sep ++ joinWith sep (y :: xs)

/-- Python `s.strip()`: whitespace removed from both ends. -/
def pyStrip (s : String) : String :=
  String.mk (((s.toList.dropWhile Char.isWhitespace).reverse.dropWhile
    Char.isWhitespace).reverse)

/-! ## Paths

A path is a list of components. `pathlib` drops empty and `"."` components
at construction and keeps `".."`; `resolve` makes the path absolute and
eliminates `".."` lexically (no symlinks exist in the model). -/

/-- The components of `PurePosixPath(s)` (empty and `"."` pieces dropped,
`".."` kept), as `pathlib` parses a path string. -/
def pathParts (s : String) : List String :=
  (pySplit s "/").filter (fun c => !(c == "") && !(c == "."))

/-- Whether a path string is absolute. -/
def isAbsolutePath (s : String) : Bool :=
  match s.toList with
  | '/' :: _ => true
  | _ => false

/-- `base.joinpath(s)` for an absolute `base`: an absolute path string
replaces the base entirely. -/
def joinUnder (base : List String) (s : String) : List String :=
  if isAbsolutePath s then pathParts s else base ++ pathParts s

/-- `Path.resolve()` on an absolute component list: eliminate `".."`
(at the root, `".."` stays at the root). -/
def resolveParts (parts : List String) : List String :=
  parts.foldl (fun acc c => if c == ".." then acc.dropLast else acc ++ [c]) []

/-- The working directory the process was started from, fixed for the
whole development (the source resolves `"./agent_workspace"` against it). -/
def CWD : List String := ["home", "user"]

/-- `WORKSPACE_DIR = Path("./agent_workspace").resolve()`. -/
def WORKSPACE_DIR : List String := CWD ++ pathParts "./agent_workspace"

/-- The resolved target of an action path, exactly as `execute_action`
computes it: `WORKSPACE_DIR.joinpath(path_str).resolve()`. -/
def targetOf (ps : String) : List String :=
  resolveParts (joinUnder WORKSPACE_DIR ps)

/-! ## Filesystem -/

/-- A filesystem node: a directory or a regular file with its text. -/
inductive Node where
  | dir
  | file (content : String)
deriving DecidableEq

/-- The filesystem: an association list from absolute paths (component
lists) to nodes. The root `[]` always exists as a directory. -/
abbrev FS := List (List String × Node)

/-- Look a path up; the root is always a directory. -/
def FS.lookup (fs : FS) (p : List String) : Option Node :=
  if p = [] then some Node.dir else List.lookup p fs

/-- Bind a path to a node, replacing any previous binding. -/
def FS.set (fs : FS) (p : List String) (n : Node) : FS :=
  (p, n) :: fs.filter (fun e => !(e.1 == p))

/-- The chain of ancestors of `p` from the outermost down to `p` itself
(the root excluded: it always exists). -/
def ancestorsChain (p : List String) : List (List String) :=
  (List.range p.length).map (fun i => p.take (i + 1))

/-- One `mkdir` with `exist_ok=True`: an existing directory is fine, an
existing regular file raises `FileExistsError`. -/
def mkdirOne (fs : FS) (q : List String) : Except String FS :=
  match FS.lookup fs q with
  | some Node.dir => Except.ok fs
  | some (Node.file _) => Except.error "FileExistsError"
  | none => Except.ok (FS.set fs q Node.dir)

/-- Create every directory of a chain in order, stopping at the first
failure. -/
def mkdirChain : FS → List (List String) → Except String FS
  | fs, [] => Except.ok fs
  | fs, q :: qs =>
    match mkdirOne fs q with
    | Except.ok fs2 => mkdirChain fs2 qs
    | Except.error e => Except.error e

/-- `p.mkdir(parents=True, exist_ok=True)`. -/
def mkdirParents (fs : FS) (p : List String) : Except String FS :=
  mkdirChain fs (ancestorsChain p)

/-- `open(p, "w")` followed by a full write: fails if the parent is not a
directory or if `p` itself is a directory; otherwise the file is created
or truncated and holds exactly `c`. -/
def writeFile (fs : FS) (p : List String) (c : String) : Except String FS :=
  if FS.lookup fs p.dropLast = some Node.dir then
    match FS.lookup fs p with
    | some Node.dir => Except.error "IsADirectoryError"
    | _ => Except.ok (FS.set fs p (Node.file c))
  else
    Except.error "FileNotFoundError"

/-! ## `execute_action` -/

/-- The `except`-branch message
`f"Error performing '{action_type}' on '{path_str}': {e}"`. -/
def errPerform (ty : Option Json) (ps : String) (e : String) : String :=
  "Error performing '" ++ optRender ty ++ "' on '" ++ ps ++ "': " ++ e

/-- The `create_folder` branch of `execute_action`. -/
def doCreateFolder (fs : FS) (target : List String) (ty : Option Json)
    (ps : String) : Bool × String × FS :=
  match mkdirParents fs target with
  | Except.ok fs2 => (true, "Folder created/ensured: " ++ ps, fs2)
  | Except.error e => (false, errPerform ty ps e, fs)

/-- The open-and-write of the `create_file`/`edit_file` branch, for a
string `content`. -/
def writeOutcome (fs2 : FS) (target : List String) (c : String)
    (verb : String) (ty : Option Json) (ps : String) : Bool × String × FS :=
  match writeFile fs2 target c with
  | Except.ok fs3 => (true, "File " ++ verb ++ ": " ++ ps, fs3)
  | Except.error e => (false, errPerform ty ps e, fs2)

/-- The open-and-write for a non-string `content`: `open` truncates the
file, then `write` raises `TypeError`. -/
def writeOutcomeBad (fs2 : FS) (target : List String)
    (ty : Option Json) (ps : String) : Bool × String × FS :=
  match writeFile fs2 target "" with
  | Except.ok fs3 =>
    (false, errPerform ty ps "TypeError: write() argument must be str", fs3)
  | Except.error e => (false, errPerform ty ps e, fs2)

/-- Dispatch of the write on the `content` value's shape. -/
def doWriteContent (fs2 : FS) (target : List String) (contentJ : Json)
    (verb : String) (ty : Option Json) (ps : String) : Bool × String × FS :=
  match contentJ with
  | Json.str c => writeOutcome fs2 target c verb ty ps
  | _ => writeOutcomeBad fs2 target ty ps

/-- The `create_file` / `edit_file` branch of `execute_action`: ensure the
parent directory, then open-and-write. -/
def doWriteFile (fs : FS) (target : List String) (contentJ : Json)
    (verb : String) (ty : Option Json) (ps : String) : Bool × String × FS :=
  match mkdirParents fs target.dropLast with
  | Except.error e => (false, errPerform ty ps e, fs)
  | Except.ok fs2 => doWriteContent fs2 target contentJ verb ty ps

/-- `execute_action(action)` from `src/g11.py`, with the filesystem passed
explicitly. Returns the `(success, message)` pair of the source together
with the updated filesystem. The traversal check reproduces the source's
condition verbatim, including the `create_folder` exemption
`not (action_type == "create_folder" and target_path == WORKSPACE_DIR.joinpath(path_str))`. -/
def execute_action (fs : FS) (action : List (String × Json)) :
    Bool × String × FS :=
  let action_type := dictGet action "type"
  let path_str := dictGet action "path"
  let content := (dictGet action "content").getD (Json.str "")
  if !(optTruthy action_type) || !(optTruthy path_str) then
    (false, "Error: Action type or path missing.", fs)
  else
    match path_str with
    | some (Json.str ps) =>
      let joined := joinUnder WORKSPACE_DIR ps
      let target := resolveParts joined
      if !(WORKSPACE_DIR.isPrefixOf target)
          && !(isStrVal action_type "create_folder" && target == joined) then
        (false, "Error: Path '" ++ ps ++ "' is outside the allowed workspace.", fs)
      else if isStrVal action_type "create_folder" then
        doCreateFolder fs target action_type ps
      else if isStrVal action_type "create_file"
          || isStrVal action_type "edit_file" then
        let verb := if isStrVal action_type "create_file" then "Created" else "Edited"
        doWriteFile fs target content verb action_type ps
      else
        (false, "Error: Unknown action type '" ++ optRender action_type ++ "'.", fs)
    | _ =>
      (false, errPerform (dictGet action "type") (optRender path_str)
        "TypeError: argument should be a str", fs)

/-! ## Response parsing

Lines 195-211 of `src/g11.py`: locate the fenced ```json block, parse it
with `json.loads` (the external parameter `jp`), and require a dictionary
carrying `response_type`. The three `raise` sites become the three
`ParseError` values; the source recovers them all into one message. -/

/-- The fenced-block extraction: `raw.split("```json", 1)[1].split("```", 1)[0].strip()`,
guarded by the two containment tests of line 198. `none` means the guard
failed (no ```json marker, or no closing fence after it). -/
def extractJsonBlock (raw : String) : Option String :=
  match pySplit raw "```json" with
  | _ :: p1 :: rest =>
    let after := joinWith "```json" (p1 :: rest)
    match pySplit after "```" with
    | before :: _ :: _ => some (pyStrip before)
    | _ => none
  | _ => none

/-- The three failure modes of the response parser. -/
inductive ParseError where
  | noJsonBlock
  | invalidJson
  | missingResponseType

/-- Whether the parsed value is a dictionary containing `response_type`
(the check of line 202). -/
def hasResponseType : Json → Bool
  | Json.obj fields => (dictGet fields "response_type").isSome
  | _ => false

/-- The parsing of lines 197-206, with `jp` standing for `json.loads`
(`none` models a raised decode error). -/
def parseResponse (jp : String → Option Json) (raw : String) :
    Except ParseError Json :=
  match extractJsonBlock raw with
  | none => Except.error ParseError.noJsonBlock
  | some s =>
    match jp s with
    | none => Except.error ParseError.invalidJson
    | some v =>
      if hasResponseType v then Except.ok v
      else Except.error ParseError.missingResponseType

/-- The single user-visible recovery message of line 210:
`f"Error: Could not parse the response from the AI.\n(Raw response: {raw_response_text[:500]}...)"`. -/
def parseFailMsg (raw : String) : String :=
  "Error: Could not parse the response from the AI.\n(Raw response: "
    ++ raw.take 500 ++ "...)"

/-! ## Progress events

Each event is one assistant entry appended to the conversation, paired
(through `Event.haltButtonEnabled`) with the interactivity flag of the
yield that follows the append in the source. -/

/-- One observable progress event of `agent_chat_response`. -/
inductive Event where
  /-- The "Thinking..." status entry (line 134). -/
  | thinking
  /-- The parse-recovery message (lines 285-289). -/
  | parseFailure (msg : String)
  /-- The "Plan generated with N step(s)" header (lines 226-229). -/
  | planHeader (numSteps : Nat) (langStr : String)
  /-- The per-step action echo (lines 244-246). -/
  | stepEcho (stepNum : Nat) (total : Nat) (action : Json)
  /-- The per-step result entry (lines 251-252), with `execute_action`'s
  success flag and message. -/
  | stepResult (stepNum : Nat) (success : Bool) (msg : String)
  /-- "Execution halted by user request before step i+1" (line 238). -/
  | haltNotice (beforeStep : Nat)
  /-- "Execution failed. Stopping plan." (line 258). -/
  | stoppingPlan
  /-- "Plan successfully completed!" (line 265). -/
  | completed
  /-- "The AI generated an empty or invalid plan. Please try again."
  (line 270). -/
  | invalidPlan
  /-- An informational answer (lines 275-278). -/
  | informational (msg : String)
  /-- "Received an unknown response type ..." (lines 280-283). -/
  | unknownType (rt : String)
  /-- "An unexpected error occurred" from the turn-level handler
  (lines 291-296). -/
  | unexpectedError

/-- Whether the halt button is interactive in the yield following the
event's append (the `gr.update(interactive=...)` values of the source). -/
def Event.haltButtonEnabled : Event → Bool
  | Event.planHeader _ _ => true
  | Event.stepEcho _ _ _ => true
  | Event.stepResult _ _ _ => true
  | _ => false

/-- The three terminal notices: halted, failed ("stopping plan"),
completed. -/
def Event.isTerminal : Event → Bool
  | Event.haltNotice _ => true
  | Event.stoppingPlan => true
  | Event.completed => true
  | _ => false

/-! ## The plan-execution loop -/

/-- How one plan run ends. -/
inductive Outcome where
  /-- Every step ran and succeeded. -/
  | completedAll
  /-- The cooperative halt fired before some step. -/
  | halted
  /-- A step failed; the plan stopped. -/
  | failed
  /-- A non-dictionary step raised out of the loop into the turn-level
  handler. -/
  | aborted

/-- The filesystem effect of one loop iteration: a dictionary step runs
`execute_action`; anything else raises before touching the filesystem. -/
def stepRes (fs : FS) (a : Json) : Bool × String × FS :=
  match a with
  | Json.obj fields => execute_action fs fields
  | _ => (true, "", fs)

/-- The filesystem after one loop iteration. -/
def stepFS (fs : FS) (a : Json) : FS :=
  (stepRes fs a).2.2

/-- The filesystem after a list of steps. -/
def applySteps (fs : FS) (steps : List Json) : FS :=
  steps.foldl stepFS fs

/-- The `for i, action_to_execute in enumerate(plan)` loop of lines
234-261. `halt j` is the value of `controls['halt_requested']` read at
the top of iteration `j`; `i` is the current index, `total` the plan
length. Returns the events appended by the loop (and by the turn-level
handler, for a non-dictionary step), the final filesystem, and how the
run ended. -/
def planLoop : FS → (Nat → Bool) → Nat → Nat → List Json →
    List Event × FS × Outcome
  | fs, _, _, _, [] => ([], fs, Outcome.completedAll)
  | fs, halt, i, total, a :: rest =>
    if halt i then
      ([Event.haltNotice (i + 1)], fs, Outcome.halted)
    else
      match a with
      | Json.obj fields =>
        let r := execute_action fs fields
        if r.1 then
          let t := planLoop r.2.2 halt (i + 1) total rest
          (Event.stepEcho (i + 1) total a
             :: Event.stepResult (i + 1) r.1 r.2.1 :: t.1, t.2)
        else
          ([Event.stepEcho (i + 1) total a,
            Event.stepResult (i + 1) r.1 r.2.1, Event.stoppingPlan],
           r.2.2, Outcome.failed)
      | _ =>
        ([Event.stepEcho (i + 1) total a, Event.unexpectedError],
         fs, Outcome.aborted)

/-- Lines 224-267: the plan header, the loop, and the trailing
"successfully completed" notice (appended only when the loop neither
halted, failed nor aborted). -/
def runPlan (fs : FS) (halt : Nat → Bool) (langStr : String)
    (steps : List Json) : List Event × FS :=
  let t := planLoop fs halt 0 steps.length steps
  (Event.planHeader steps.length langStr :: t.1
     ++ (match t.2.2 with
         | Outcome.completedAll => [Event.completed]
         | _ => []),
   t.2.1)

/-! ## The turn-level handler -/

/-- `plan_steps` as the source reads it: `parsed_response.get("plan_steps", [])`. -/
def planStepsOf (v : Json) : Json :=
  match v with
  | Json.obj fields => (dictGet fields "plan_steps").getD (Json.arr [])
  | _ => Json.arr []

/-- The validity test of line 222: `isinstance(plan, list) and plan`. -/
def isNonEmptyArr : Json → Bool
  | Json.arr (_ :: _) => true
  | _ => false

/-- `declared_languages` after lines 219-220: `get("languages_used", [])`,
with a non-list silently replaced by `[]`. -/
def readLanguages (v : Json) : List Json :=
  match v with
  | Json.obj fields =>
    match (dictGet fields "languages_used").getD (Json.arr []) with
    | Json.arr xs => xs
    | _ => []
  | _ => []

/-- `", ".join` demands strings; a non-string element raises `TypeError`
(modelled as `none`). -/
def allStrings : List Json → Option (List String)
  | [] => some []
  | Json.str s :: rest => (allStrings rest).map (fun t => s :: t)
  | _ => none

/-- `lang_str = ", ".join(declared_languages) if declared_languages else "N/A"`. -/
def langString (xs : List String) : String :=
  match xs with
  | [] => "N/A"
  | _ => joinWith ", " xs

/-- `response_type` as read on line 215 (`parsed_response.get("response_type")`). -/
def responseTypeOf (v : Json) : Option Json :=
  match v with
  | Json.obj fields => dictGet fields "response_type"
  | _ => none

/-- `parsed_response.get("message", "Sorry, I couldn't formulate an answer.")`. -/
def readMessage (v : Json) : String :=
  match v with
  | Json.obj fields =>
    Json.render ((dictGet fields "message").getD
      (Json.str "Sorry, I couldn't formulate an answer."))
  | _ => "Sorry, I couldn't formulate an answer."

/-- Lines 214-283: dispatch on `response_type` over an already-parsed
response. The `"plan"` branch checks validity, computes the language
string (a `TypeError` there aborts into the turn-level handler before the
plan header is emitted), and runs the plan. -/
def processParsed (fs : FS) (halt : Nat → Bool) (v : Json) :
    List Event × FS :=
  if isStrVal (responseTypeOf v) "plan" then
    match planStepsOf v with
    | Json.arr (s0 :: srest) =>
      match allStrings (readLanguages v) with
      | some langs => runPlan fs halt (langString langs) (s0 :: srest)
      | none => ([Event.unexpectedError], fs)
    | _ => ([Event.invalidPlan], fs)
  else if isStrVal (responseTypeOf v) "informational" then
    ([Event.informational (readMessage v)], fs)
  else
    ([Event.unknownType (optRender (responseTypeOf v))], fs)

/-- The observable core of `agent_chat_response` once the model's raw text
`raw` has arrived: the "Thinking..." status entry, then either the single
parse-recovery message or the dispatch on the parsed response. Returns
the assistant entries appended during the turn and the final filesystem.
`jp` stands for the external `json.loads`. -/
def agent_chat_response (jp : String → Option Json) (fs : FS)
    (halt : Nat → Bool) (raw : String) : List Event × FS :=
  match parseResponse jp raw with
  | Except.error _ => ([Event.thinking, Event.parseFailure (parseFailMsg raw)], fs)
  | Except.ok v =>
    let t := processParsed fs halt v
    (Event.thinking :: t.1, t.2)

/-! ## Step bookkeeping for the loop theorems -/

/-- Whether step `j` (0-indexed) of `steps`, run from `fs` after the steps
before it, is a dictionary action that `execute_action` accepts. -/
def stepOk (fs : FS) (steps : List Json) (j : Nat) : Bool :=
  match steps.get? j with
  | some (Json.obj fields) =>
    (execute_action (applySteps fs (steps.take j)) fields).1
  | _ => false

/-- The echo/result event pairs of a run of consecutive successful steps,
starting at index `i` from filesystem `fs`. -/
def successTrace : FS → Nat → Nat → List Json → List Event
  | _, _, _, [] => []
  | fs, i, total, a :: rest =>
    Event.stepEcho (i + 1) total a
      :: Event.stepResult (i + 1) (stepRes fs a).1 (stepRes fs a).2.1
      :: successTrace (stepFS fs a) (i + 1) total rest
/-! ## Helper lemmas -/

/-- A falsy `type` or `path` short-circuits `execute_action` before the
traversal check and before any filesystem access. -/
theorem execute_action_missing_eq (fs : FS) (action : List (String × Json))
    (h : optTruthy (dictGet action "type") = false
      ∨ optTruthy (dictGet action "path") = false) :
    execute_action fs action = (false, "Error: Action type or path missing.", fs) := by
  unfold execute_action
  rcases h with h | h <;> simp [h]

/-- The source's plan acceptance test (line 222 of `src/g11.py`):
`isinstance(plan, list) and plan`. -/
def planAccepted (v : Json) : Bool :=
  isNonEmptyArr (planStepsOf v)

/-- Modelled from the spec's words for C7: a plan element that "minimally
carries `type` and `path`". -/
def specStepWellFormed : Json → Bool
  | Json.obj fields => (dictGet fields "type").isSome && (dictGet fields "path").isSome
  | _ => false

/-- A parsed `"plan"` response whose single step is the empty dictionary:
it carries neither `type` nor `path`. -/
def badPlanResponse : Json :=
  Json.obj [("response_type", Json.str "plan"),
            ("plan_steps", Json.arr [Json.obj []])]

/-- C10: an action whose `type` or `path` is missing or empty fails with
"Error: Action type or path missing.", before the path-traversal check
(the equation holds for every path value, escaping ones included) and
with the filesystem unchanged. -/
theorem missing_type_or_path_fails_first (fs : FS) (action : List (String × Json))
    (h : optTruthy (dictGet action "type") = false
      ∨ optTruthy (dictGet action "path") = false) :
    execute_action fs action = (false, "Error: Action type or path missing.", fs) :=
  execute_action_missing_eq fs action h

theorem missing_type_or_path_fails_first_witness :
    execute_action [] [("path", Json.str "../../etc/passwd")]
      = (false, "Error: Action type or path missing.", []) :=
  missing_type_or_path_fails_first [] [("path", Json.str "../../etc/passwd")] (Or.inl rfl)

/-- C1 (evidence of the code bug): a `create_folder` action whose path is
an absolute, already-normalized path outside the workspace slips through
the traversal check's `create_folder` exemption: `execute_action` creates
the directory outside the root and reports success, although the resolved
target is not under `WORKSPACE_DIR`. -/
theorem create_folder_escapes_workspace :
    execute_action [] [("type", Json.str "create_folder"), ("path", Json.str "/outside_ws")]
      = (true, "Folder created/ensured: /outside_ws", [(["outside_ws"], Node.dir)])
    ∧ WORKSPACE_DIR.isPrefixOf (targetOf "/outside_ws") = false :=
  ⟨rfl, rfl⟩

/-- C7 (counterexample): the code accepts a plan whose only element
carries neither `type` nor `path` — acceptance tests only
"non-empty list", and execution starts (the plan header is emitted). -/
theorem plan_accepted_without_type_and_path :
    planAccepted badPlanResponse = true
    ∧ specStepWellFormed (Json.obj []) = false
    ∧ (processParsed [] (fun _ => false) badPlanResponse).1.head?
        = some (Event.planHeader 1 "N/A") :=
  ⟨rfl, rfl, rfl⟩

/-- C7 (amended): the parser accepts `plan_steps` exactly when it is a
non-empty sequence; elements are not checked for `type` and `path` at
acceptance time — a step lacking either is only rejected when executed,
as a per-step failure of `execute_action`. -/
theorem plan_acceptance_is_nonempty_list (v : Json) :
    (planAccepted v = true ↔ ∃ x xs, planStepsOf v = Json.arr (x :: xs))
    ∧ (∀ fs fields, (optTruthy (dictGet fields "type") = false
        ∨ optTruthy (dictGet fields "path") = false) →
        (execute_action fs fields).1 = false) := by
  constructor
  · unfold planAccepted
    cases h : planStepsOf v with
    | arr xs =>
      cases xs with
      | nil => simp [isNonEmptyArr]
      | cons x xs => simp [isNonEmptyArr]
    | _ => simp [isNonEmptyArr]
  · intro fs fields h
    rw [execute_action_missing_eq fs fields h]

theorem plan_acceptance_is_nonempty_list_witness :
    planAccepted badPlanResponse = true
    ∧ (execute_action [] [("type", Json.str "create_file")]).1 = false :=
  ⟨(plan_acceptance_is_nonempty_list badPlanResponse).1.mpr ⟨Json.obj [], [], rfl⟩,
   (plan_acceptance_is_nonempty_list badPlanResponse).2 [] _ (Or.inr rfl)⟩

/-- A constant `json.loads` stand-in used by witnesses. -/
def jpConst (v : Json) : String → Option Json := fun _ => some v

/-- A parsed `"plan"` response with an empty `plan_steps` list. -/
def emptyPlanResponse : Json :=
  Json.obj [("response_type", Json.str "plan"), ("plan_steps", Json.arr [])]

/-- C5: the parser's three failure modes — `NoJsonBlock` when no fenced
JSON block is found, `InvalidJson` when `json.loads` rejects the
extracted substring, `MissingResponseType` when the parsed value is not a
dictionary carrying `response_type` — and their common recovery: every
parse error becomes the single "could not parse" message holding the raw
text truncated to 500 characters, and the turn never fails. -/
theorem parse_error_taxonomy (jp : String → Option Json) (raw : String)
    (fs : FS) (halt : Nat → Bool) :
    (extractJsonBlock raw = none →
      parseResponse jp raw = Except.error ParseError.noJsonBlock)
    ∧ (∀ s, extractJsonBlock raw = some s → jp s = none →
      parseResponse jp raw = Except.error ParseError.invalidJson)
    ∧ (∀ s v, extractJsonBlock raw = some s → jp s = some v →
      hasResponseType v = false →
      parseResponse jp raw = Except.error ParseError.missingResponseType)
    ∧ (∀ e, parseResponse jp raw = Except.error e →
      agent_chat_response jp fs halt raw
        = ([Event.thinking, Event.parseFailure (parseFailMsg raw)], fs)) := by
  refine ⟨?_, ?_, ?_, ?_⟩
  · intro h
    simp [parseResponse, h]
  · intro s h hj
    simp [parseResponse, h, hj]
  · intro s v h hj hv
    simp [parseResponse, h, hj, hv]
  · intro e h
    simp [agent_chat_response, h]

theorem parse_error_taxonomy_witness :
    parseResponse (jpConst Json.null) "no fence here"
      = Except.error ParseError.noJsonBlock
    ∧ agent_chat_response (jpConst Json.null) [] (fun _ => false) "no fence here"
      = ([Event.thinking, Event.parseFailure (parseFailMsg "no fence here")], []) :=
  ⟨(parse_error_taxonomy (jpConst Json.null) "no fence here" [] (fun _ => false)).1 rfl,
   (parse_error_taxonomy (jpConst Json.null) "no fence here" [] (fun _ => false)).2.2.2
     ParseError.noJsonBlock
     ((parse_error_taxonomy (jpConst Json.null) "no fence here" [] (fun _ => false)).1 rfl)⟩

/-- C6: a parsed `"plan"` response whose `plan_steps` is empty or not a
sequence yields exactly the "empty or invalid plan" notice (a
constructor distinct from the parse-recovery message), no step events,
and an unchanged filesystem. -/
theorem invalid_plan_notice (jp : String → Option Json) (fs : FS)
    (halt : Nat → Bool) (raw : String) (v : Json)
    (hok : parseResponse jp raw = Except.ok v)
    (hty : isStrVal (responseTypeOf v) "plan" = true)
    (hbad : isNonEmptyArr (planStepsOf v) = false) :
    agent_chat_response jp fs halt raw = ([Event.thinking, Event.invalidPlan], fs) := by
  simp only [agent_chat_response, hok]
  unfold processParsed
  rw [hty]
  simp only [if_true]
  cases h : planStepsOf v with
  | arr xs =>
    cases xs with
    | nil => simp
    | cons x xs => rw [h] at hbad; simp [isNonEmptyArr] at hbad
  | null => simp
  | bool b => simp
  | num n => simp
  | str s => simp
  | obj fields => simp

theorem invalid_plan_notice_witness :
    agent_chat_response (jpConst emptyPlanResponse) [] (fun _ => false)
        "```json\nx\n```"
      = ([Event.thinking, Event.invalidPlan], []) :=
  invalid_plan_notice (jpConst emptyPlanResponse) [] (fun _ => false)
    "```json\nx\n```" emptyPlanResponse rfl rfl rfl

/-! ## Filesystem lemmas -/

theorem lookup_filter_ne (fs : FS) (p q : List String) (h : q ≠ p) :
    List.lookup q (fs.filter (fun e => !(e.1 == p))) = List.lookup q fs := by
  induction fs with
  | nil => rfl
  | cons a fs ih =>
    by_cases hap : a.1 = p
    · have : (a.1 == p) = true := beq_iff_eq.mpr hap
      have hqa : (q == a.1) = false := by
        rw [beq_eq_false_iff_ne]
        intro hq; exact h (hq.trans hap)
      simp [List.filter, this, List.lookup, hqa, ih]
    · have : (a.1 == p) = false := beq_eq_false_iff_ne.mpr hap
      by_cases hqa : q = a.1
      · simp [List.filter, this, List.lookup, beq_iff_eq.mpr hqa]
      · simp [List.filter, this, List.lookup, beq_eq_false_iff_ne.mpr hqa, ih]

theorem FS.lookup_set_self (fs : FS) (p : List String) (n : Node) (hp : p ≠ []) :
    FS.lookup (FS.set fs p n) p = some n := by
  simp [FS.lookup, FS.set, hp, List.lookup]

theorem FS.lookup_set_ne (fs : FS) (p q : List String) (n : Node) (h : q ≠ p) :
    FS.lookup (FS.set fs p n) q = FS.lookup fs q := by
  by_cases hq : q = []
  · simp [FS.lookup, hq]
  · have hqp : (q == p) = false := beq_eq_false_iff_ne.mpr h
    simp only [FS.lookup, if_neg hq, FS.set, List.lookup, hqp]
    exact lookup_filter_ne fs p q h

theorem mkdirOne_ok_dir (fs fs2 : FS) (q : List String)
    (h : mkdirOne fs q = Except.ok fs2) : FS.lookup fs2 q = some Node.dir := by
  unfold mkdirOne at h
  cases hl : FS.lookup fs q with
  | none =>
    rw [hl] at h
    have hq : q ≠ [] := by
      intro hq; rw [hq] at hl; simp [FS.lookup] at hl
    cases h
    exact FS.lookup_set_self fs q Node.dir hq
  | some n =>
    cases n with
    | dir => rw [hl] at h; cases h; exact hl
    | file c => rw [hl] at h; cases h

theorem mkdirOne_preserves_dir (fs fs2 : FS) (q r : List String)
    (h : mkdirOne fs q = Except.ok fs2) (hr : FS.lookup fs r = some Node.dir) :
    FS.lookup fs2 r = some Node.dir := by
  unfold mkdirOne at h
  cases hl : FS.lookup fs q with
  | none =>
    rw [hl] at h
    cases h
    have hrq : r ≠ q := by
      intro hrq; rw [hrq, hl] at hr; cases hr
    rw [FS.lookup_set_ne fs q r Node.dir hrq]
    exact hr
  | some n =>
    cases n with
    | dir => rw [hl] at h; cases h; exact hr
    | file c => rw [hl] at h; cases h

theorem mkdirOne_of_dir (fs : FS) (q : List String)
    (h : FS.lookup fs q = some Node.dir) : mkdirOne fs q = Except.ok fs := by
  unfold mkdirOne
  rw [h]

theorem mkdirChain_preserves_dir (l : List (List String)) :
    ∀ fs fs2 r, mkdirChain fs l = Except.ok fs2 →
    FS.lookup fs r = some Node.dir → FS.lookup fs2 r = some Node.dir := by
  induction l with
  | nil => intro fs fs2 r h hr; cases h; exact hr
  | cons q qs ih =>
    intro fs fs2 r h hr
    unfold mkdirChain at h
    cases h1 : mkdirOne fs q with
    | error e => rw [h1] at h; cases h
    | ok fsm =>
      rw [h1] at h
      exact ih fsm fs2 r h (mkdirOne_preserves_dir fs fsm q r h1 hr)

theorem mkdirChain_all_dirs (l : List (List String)) :
    ∀ fs fs2, mkdirChain fs l = Except.ok fs2 →
    ∀ q ∈ l, FS.lookup fs2 q = some Node.dir := by
  induction l with
  | nil => intro fs fs2 _ q hq; cases hq
  | cons p qs ih =>
    intro fs fs2 h q hq
    unfold mkdirChain at h
    cases h1 : mkdirOne fs p with
    | error e => rw [h1] at h; cases h
    | ok fsm =>
      rw [h1] at h
      rcases List.mem_cons.mp hq with hq | hq
      · subst hq
        exact mkdirChain_preserves_dir qs fsm fs2 q h (mkdirOne_ok_dir fs fsm q h1)
      · exact ih fsm fs2 h q hq

theorem mkdirChain_idem (l : List (List String)) :
    ∀ fs, (∀ q ∈ l, FS.lookup fs q = some Node.dir) →
    mkdirChain fs l = Except.ok fs := by
  induction l with
  | nil => intro fs _; rfl
  | cons p qs ih =>
    intro fs h
    unfold mkdirChain
    rw [mkdirOne_of_dir fs p (h p (List.mem_cons_self p qs))]
    exact ih fs (fun q hq => h q (List.mem_cons_of_mem p hq))

theorem mkdirParents_ok_idem (fs fs2 : FS) (p : List String)
    (h : mkdirParents fs p = Except.ok fs2) :
    mkdirParents fs2 p = Except.ok fs2 :=
  mkdirChain_idem (ancestorsChain p) fs2
    (mkdirChain_all_dirs (ancestorsChain p) fs fs2 h)

theorem self_mem_ancestorsChain (p : List String) (hp : p ≠ []) :
    p ∈ ancestorsChain p := by
  unfold ancestorsChain
  rw [List.mem_map]
  refine ⟨p.length - 1, ?_, ?_⟩
  · rw [List.mem_range]
    exact Nat.pred_lt (by simpa [List.length_eq_zero] using hp)
  · have hlen : p.length - 1 + 1 = p.length :=
      Nat.succ_pred_eq_of_pos (List.length_pos.mpr hp)
    rw [hlen, List.take_length]

theorem mkdirParents_ok_lookup (fs fs2 : FS) (p : List String)
    (h : mkdirParents fs p = Except.ok fs2) :
    FS.lookup fs2 p = some Node.dir := by
  by_cases hp : p = []
  · simp [FS.lookup, hp]
  · exact mkdirChain_all_dirs (ancestorsChain p) fs fs2 h p
      (self_mem_ancestorsChain p hp)

theorem writeFile_ok_lookup (fs fs2 : FS) (p : List String) (c : String)
    (h : writeFile fs p c = Except.ok fs2) :
    FS.lookup fs2 p = some (Node.file c) := by
  unfold writeFile at h
  by_cases hpar : FS.lookup fs p.dropLast = some Node.dir
  · rw [if_pos hpar] at h
    have hp : p ≠ [] := by
      intro hp
      rw [hp] at h
      simp [FS.lookup] at h
    cases hl : FS.lookup fs p with
    | none => rw [hl] at h; cases h; exact FS.lookup_set_self fs p _ hp
    | some n =>
      cases n with
      | dir => rw [hl] at h; cases h
      | file c0 => rw [hl] at h; cases h; exact FS.lookup_set_self fs p _ hp
  · rw [if_neg hpar] at h; cases h

/-! ## Write and folder actions -/

/-- A `create_file`/`edit_file` action dictionary. -/
def writeAction (ty ps c : String) : List (String × Json) :=
  [("type", Json.str ty), ("path", Json.str ps), ("content", Json.str c)]

/-- A `create_folder` action dictionary. -/
def folderAction (ps : String) : List (String × Json) :=
  [("type", Json.str "create_folder"), ("path", Json.str ps)]

theorem dictGet_writeAction_type (ty ps c : String) :
    dictGet (writeAction ty ps c) "type" = some (Json.str ty) := rfl

theorem dictGet_writeAction_path (ty ps c : String) :
    dictGet (writeAction ty ps c) "path" = some (Json.str ps) := rfl

theorem dictGet_writeAction_content (ty ps c : String) :
    dictGet (writeAction ty ps c) "content" = some (Json.str c) := rfl

theorem dictGet_folderAction_type (ps : String) :
    dictGet (folderAction ps) "type" = some (Json.str "create_folder") := rfl

theorem dictGet_folderAction_path (ps : String) :
    dictGet (folderAction ps) "path" = some (Json.str ps) := rfl

theorem dictGet_folderAction_content (ps : String) :
    dictGet (folderAction ps) "content" = none := rfl

theorem writeOutcome_agree (fs2 : FS) (t : List String) (c : String)
    (v1 v2 : String) (ty1 ty2 : Option Json) (ps : String) :
    (writeOutcome fs2 t c v1 ty1 ps).1 = (writeOutcome fs2 t c v2 ty2 ps).1
    ∧ (writeOutcome fs2 t c v1 ty1 ps).2.2 = (writeOutcome fs2 t c v2 ty2 ps).2.2 := by
  unfold writeOutcome
  generalize writeFile fs2 t c = w
  cases w <;> exact ⟨rfl, rfl⟩

theorem writeOutcomeBad_agree (fs2 : FS) (t : List String)
    (ty1 ty2 : Option Json) (ps : String) :
    (writeOutcomeBad fs2 t ty1 ps).1 = (writeOutcomeBad fs2 t ty2 ps).1
    ∧ (writeOutcomeBad fs2 t ty1 ps).2.2 = (writeOutcomeBad fs2 t ty2 ps).2.2 := by
  unfold writeOutcomeBad
  generalize writeFile fs2 t "" = w
  cases w <;> exact ⟨rfl, rfl⟩

theorem doWriteContent_agree (fs2 : FS) (t : List String) (cj : Json)
    (v1 v2 : String) (ty1 ty2 : Option Json) (ps : String) :
    (doWriteContent fs2 t cj v1 ty1 ps).1 = (doWriteContent fs2 t cj v2 ty2 ps).1
    ∧ (doWriteContent fs2 t cj v1 ty1 ps).2.2 = (doWriteContent fs2 t cj v2 ty2 ps).2.2 := by
  cases cj with
  | str c => exact writeOutcome_agree fs2 t c v1 v2 ty1 ty2 ps
  | null => exact writeOutcomeBad_agree fs2 t ty1 ty2 ps
  | bool b => exact writeOutcomeBad_agree fs2 t ty1 ty2 ps
  | num n => exact writeOutcomeBad_agree fs2 t ty1 ty2 ps
  | arr xs => exact writeOutcomeBad_agree fs2 t ty1 ty2 ps
  | obj f => exact writeOutcomeBad_agree fs2 t ty1 ty2 ps

theorem doWriteFile_agree (fs : FS) (t : List String) (cj : Json)
    (v1 v2 : String) (ty1 ty2 : Option Json) (ps : String) :
    (doWriteFile fs t cj v1 ty1 ps).1 = (doWriteFile fs t cj v2 ty2 ps).1
    ∧ (doWriteFile fs t cj v1 ty1 ps).2.2 = (doWriteFile fs t cj v2 ty2 ps).2.2 := by
  unfold doWriteFile
  generalize mkdirParents fs t.dropLast = mres
  cases mres with
  | error e => exact ⟨rfl, rfl⟩
  | ok fs2 => exact doWriteContent_agree fs2 t cj v1 v2 ty1 ty2 ps

theorem writeOutcome_success_parts (fs2 : FS) (t : List String) (c : String)
    (v : String) (ty : Option Json) (ps : String)
    (h : (writeOutcome fs2 t c v ty ps).1 = true) :
    (writeOutcome fs2 t c v ty ps).2.1 = "File " ++ v ++ ": " ++ ps
    ∧ FS.lookup (writeOutcome fs2 t c v ty ps).2.2 t = some (Node.file c) := by
  unfold writeOutcome at h ⊢
  generalize hw : writeFile fs2 t c = w at h ⊢
  cases w with
  | error e => simp at h
  | ok fs3 => exact ⟨rfl, writeFile_ok_lookup fs2 fs3 t c hw⟩

theorem writeOutcomeBad_false (fs2 : FS) (t : List String)
    (ty : Option Json) (ps : String) :
    (writeOutcomeBad fs2 t ty ps).1 = false := by
  unfold writeOutcomeBad
  generalize writeFile fs2 t "" = w
  cases w <;> rfl

theorem doWriteContent_success_parts (fs2 : FS) (t : List String) (cj : Json)
    (v : String) (ty : Option Json) (ps : String)
    (h : (doWriteContent fs2 t cj v ty ps).1 = true) :
    (doWriteContent fs2 t cj v ty ps).2.1 = "File " ++ v ++ ": " ++ ps
    ∧ ∃ c, cj = Json.str c
      ∧ FS.lookup (doWriteContent fs2 t cj v ty ps).2.2 t = some (Node.file c) := by
  cases cj with
  | str c =>
    obtain ⟨h1, h2⟩ := writeOutcome_success_parts fs2 t c v ty ps h
    exact ⟨h1, c, rfl, h2⟩
  | null => rw [show doWriteContent fs2 t Json.null v ty ps = writeOutcomeBad fs2 t ty ps from rfl,
      writeOutcomeBad_false] at h; cases h
  | bool b => rw [show doWriteContent fs2 t (Json.bool b) v ty ps = writeOutcomeBad fs2 t ty ps from rfl,
      writeOutcomeBad_false] at h; cases h
  | num n => rw [show doWriteContent fs2 t (Json.num n) v ty ps = writeOutcomeBad fs2 t ty ps from rfl,
      writeOutcomeBad_false] at h; cases h
  | arr xs => rw [show doWriteContent fs2 t (Json.arr xs) v ty ps = writeOutcomeBad fs2 t ty ps from rfl,
      writeOutcomeBad_false] at h; cases h
  | obj f => rw [show doWriteContent fs2 t (Json.obj f) v ty ps = writeOutcomeBad fs2 t ty ps from rfl,
      writeOutcomeBad_false] at h; cases h

theorem doWriteFile_success_parts (fs : FS) (t : List String) (cj : Json)
    (v : String) (ty : Option Json) (ps : String)
    (h : (doWriteFile fs t cj v ty ps).1 = true) :
    (doWriteFile fs t cj v ty ps).2.1 = "File " ++ v ++ ": " ++ ps
    ∧ ∃ c, cj = Json.str c
      ∧ FS.lookup (doWriteFile fs t cj v ty ps).2.2 t = some (Node.file c) := by
  unfold doWriteFile at h ⊢
  generalize hm : mkdirParents fs t.dropLast = mres at h ⊢
  cases mres with
  | error e => simp at h
  | ok fs2 => exact doWriteContent_success_parts fs2 t cj v ty ps h

theorem execute_action_write_reduce (fs : FS) (ps c ty : String)
    (hty : ty = "create_file" ∨ ty = "edit_file") :
    execute_action fs (writeAction ty ps c)
      = if ps == "" then (false, "Error: Action type or path missing.", fs)
        else if WORKSPACE_DIR.isPrefixOf (targetOf ps) then
          doWriteFile fs (targetOf ps) (Json.str c)
            (if ty == "create_file" then "Created" else "Edited")
            (some (Json.str ty)) ps
        else (false, "Error: Path '" ++ ps ++ "' is outside the allowed workspace.", fs) := by
  rcases hty with hty | hty <;> subst hty <;>
  · unfold execute_action
    rw [dictGet_writeAction_type, dictGet_writeAction_path, dictGet_writeAction_content]
    unfold targetOf
    by_cases hps : (ps == "") = true <;>
      by_cases hpref : WORKSPACE_DIR.isPrefixOf
        (resolveParts (joinUnder WORKSPACE_DIR ps)) = true <;>
      simp_all [optTruthy, Json.truthy, isStrVal,
        show (("create_file" : String) == "create_folder") = false from rfl,
        show (("create_file" : String) == "create_file") = true from rfl,
        show (("edit_file" : String) == "create_folder") = false from rfl,
        show (("edit_file" : String) == "create_file") = false from rfl,
        show (("edit_file" : String) == "edit_file") = true from rfl]

theorem execute_action_folder_reduce (fs : FS) (ps : String) :
    execute_action fs (folderAction ps)
      = if ps == "" then (false, "Error: Action type or path missing.", fs)
        else if !(WORKSPACE_DIR.isPrefixOf (targetOf ps))
            && !(targetOf ps == joinUnder WORKSPACE_DIR ps) then
          (false, "Error: Path '" ++ ps ++ "' is outside the allowed workspace.", fs)
        else doCreateFolder fs (targetOf ps) (some (Json.str "create_folder")) ps := by
  unfold execute_action
  rw [dictGet_folderAction_type, dictGet_folderAction_path, dictGet_folderAction_content]
  unfold targetOf
  by_cases hps : (ps == "") = true
  · simp_all [optTruthy, Json.truthy]
  · by_cases hcond : (!(WORKSPACE_DIR.isPrefixOf (resolveParts (joinUnder WORKSPACE_DIR ps)))
        && !(resolveParts (joinUnder WORKSPACE_DIR ps) == joinUnder WORKSPACE_DIR ps)) = true <;>
      simp_all [optTruthy, Json.truthy, isStrVal,
        show (("create_folder" : String) == "create_folder") = true from rfl]

theorem execute_action_write_agree (fs : FS) (ps c : String) :
    (execute_action fs (writeAction "create_file" ps c)).1
      = (execute_action fs (writeAction "edit_file" ps c)).1
    ∧ (execute_action fs (writeAction "create_file" ps c)).2.2
      = (execute_action fs (writeAction "edit_file" ps c)).2.2 := by
  rw [execute_action_write_reduce fs ps c "create_file" (Or.inl rfl),
      execute_action_write_reduce fs ps c "edit_file" (Or.inr rfl)]
  by_cases hps : (ps == "") = true
  · rw [if_pos hps, if_pos hps]; exact ⟨rfl, rfl⟩
  · rw [if_neg hps, if_neg hps]
    by_cases hpref : WORKSPACE_DIR.isPrefixOf (targetOf ps) = true
    · rw [if_pos hpref, if_pos hpref]
      exact doWriteFile_agree fs (targetOf ps) (Json.str c) _ _ _ _ ps
    · rw [if_neg hpref, if_neg hpref]; exact ⟨rfl, rfl⟩

theorem execute_action_write_success_msg (fs : FS) (ps c ty : String)
    (hty : ty = "create_file" ∨ ty = "edit_file")
    (hsucc : (execute_action fs (writeAction ty ps c)).1 = true) :
    (execute_action fs (writeAction ty ps c)).2.1
      = "File " ++ (if ty == "create_file" then "Created" else "Edited")
          ++ ": " ++ ps := by
  rw [execute_action_write_reduce fs ps c ty hty] at hsucc ⊢
  by_cases hps : (ps == "") = true
  · rw [if_pos hps] at hsucc; simp at hsucc
  · rw [if_neg hps] at hsucc ⊢
    by_cases hpref : WORKSPACE_DIR.isPrefixOf (targetOf ps) = true
    · rw [if_pos hpref] at hsucc ⊢
      exact (doWriteFile_success_parts _ _ _ _ _ _ hsucc).1
    · rw [if_neg hpref] at hsucc; simp at hsucc

/-- C8: `create_file` and `edit_file` have identical filesystem semantics
— same success flag and same resulting filesystem on every input — and
differ only in the reported verb ("Created" vs "Edited"); two successive
successful writes to the same path leave the file holding exactly the
content of the last write. -/
theorem create_file_edit_file_same_semantics (fs : FS) (ps c c2 ty1 ty2 : String)
    (h1 : ty1 = "create_file" ∨ ty1 = "edit_file")
    (h2 : ty2 = "create_file" ∨ ty2 = "edit_file") :
    ((execute_action fs (writeAction "create_file" ps c)).1
        = (execute_action fs (writeAction "edit_file" ps c)).1
      ∧ (execute_action fs (writeAction "create_file" ps c)).2.2
        = (execute_action fs (writeAction "edit_file" ps c)).2.2)
    ∧ ((execute_action fs (writeAction "create_file" ps c)).1 = true →
        (execute_action fs (writeAction "create_file" ps c)).2.1
          = "File Created: " ++ ps
        ∧ (execute_action fs (writeAction "edit_file" ps c)).2.1
          = "File Edited: " ++ ps)
    ∧ ((execute_action fs (writeAction ty1 ps c)).1 = true →
        (execute_action (execute_action fs (writeAction ty1 ps c)).2.2
          (writeAction ty2 ps c2)).1 = true →
        FS.lookup (execute_action (execute_action fs (writeAction ty1 ps c)).2.2
          (writeAction ty2 ps c2)).2.2 (targetOf ps) = some (Node.file c2)) := by
  refine ⟨execute_action_write_agree fs ps c, ?_, ?_⟩
  · intro hs
    have hsedit : (execute_action fs (writeAction "edit_file" ps c)).1 = true :=
      ((execute_action_write_agree fs ps c).1).symm.trans hs
    constructor
    · rw [execute_action_write_success_msg fs ps c "create_file" (Or.inl rfl) hs,
        show (if ("create_file" : String) == "create_file"
          then "Created" else "Edited") = "Created" from rfl]
      rfl
    · rw [execute_action_write_success_msg fs ps c "edit_file" (Or.inr rfl) hsedit,
        show (if ("edit_file" : String) == "create_file"
          then "Created" else "Edited") = "Edited" from rfl]
      rfl
  · intro _ hs2
    generalize (execute_action fs (writeAction ty1 ps c)).2.2 = fs1 at hs2 ⊢
    rw [execute_action_write_reduce fs1 ps c2 ty2 h2] at hs2 ⊢
    by_cases hps : (ps == "") = true
    · rw [if_pos hps] at hs2; simp at hs2
    · rw [if_neg hps] at hs2 ⊢
      by_cases hpref : WORKSPACE_DIR.isPrefixOf (targetOf ps) = true
      · rw [if_pos hpref] at hs2 ⊢
        obtain ⟨-, c', hc', hlook⟩ :=
          doWriteFile_success_parts fs1 (targetOf ps) (Json.str c2) _ _ ps hs2
        injection hc' with hcc
        subst hcc
        exact hlook
      · rw [if_neg hpref] at hs2; simp at hs2

theorem create_file_edit_file_same_semantics_witness :
    FS.lookup (execute_action
        (execute_action [] (writeAction "create_file" "a/b.txt" "one")).2.2
        (writeAction "edit_file" "a/b.txt" "two")).2.2 (targetOf "a/b.txt")
      = some (Node.file "two") :=
  (create_file_edit_file_same_semantics [] "a/b.txt" "one" "two"
      "create_file" "edit_file" (Or.inl rfl) (Or.inr rfl)).2.2
    (by decide) (by decide)

/-- C9: a successful `create_folder` leaves the resolved target present
as a directory, and running the same action again is exact idempotence:
the second run returns the same success flag, the same message, and the
identical filesystem. -/
theorem create_folder_idempotent (fs : FS) (ps : String)
    (h : (execute_action fs (folderAction ps)).1 = true) :
    execute_action (execute_action fs (folderAction ps)).2.2 (folderAction ps)
      = execute_action fs (folderAction ps)
    ∧ FS.lookup (execute_action fs (folderAction ps)).2.2 (targetOf ps)
      = some Node.dir := by
  rw [execute_action_folder_reduce fs ps] at h ⊢
  by_cases hps : (ps == "") = true
  · rw [if_pos hps] at h; simp at h
  · rw [if_neg hps] at h ⊢
    by_cases hcond : (!(WORKSPACE_DIR.isPrefixOf (targetOf ps))
        && !(targetOf ps == joinUnder WORKSPACE_DIR ps)) = true
    · rw [if_pos hcond] at h; simp at h
    · rw [if_neg hcond] at h ⊢
      unfold doCreateFolder at h ⊢
      generalize hm : mkdirParents fs (targetOf ps) = mres at h ⊢
      cases mres with
      | error e => simp at h
      | ok fs1 =>
        refine ⟨?_, mkdirParents_ok_lookup fs fs1 (targetOf ps) hm⟩
        show execute_action fs1 (folderAction ps)
          = (true, "Folder created/ensured: " ++ ps, fs1)
        rw [execute_action_folder_reduce fs1 ps, if_neg hps, if_neg hcond]
        unfold doCreateFolder
        rw [mkdirParents_ok_idem fs fs1 (targetOf ps) hm]

theorem create_folder_idempotent_witness :
    execute_action (execute_action [] (folderAction "proj/sub")).2.2
        (folderAction "proj/sub")
      = execute_action [] (folderAction "proj/sub")
    ∧ FS.lookup (execute_action [] (folderAction "proj/sub")).2.2
        (targetOf "proj/sub") = some Node.dir :=
  create_folder_idempotent [] "proj/sub" (by decide)

/-! ## Loop lemmas -/

theorem stepOk_zero (fs : FS) (a : Json) (rest : List Json)
    (h : stepOk fs (a :: rest) 0 = true) :
    ∃ fields, a = Json.obj fields ∧ (execute_action fs fields).1 = true := by
  unfold stepOk at h
  cases a with
  | obj fields => exact ⟨fields, rfl, h⟩
  | null => simp at h
  | bool b => simp at h
  | num n => simp at h
  | str s => simp at h
  | arr xs => simp at h

theorem stepOk_cons (fs : FS) (a : Json) (rest : List Json) (j : Nat) :
    stepOk fs (a :: rest) (j + 1) = stepOk (stepFS fs a) rest j := by
  unfold stepOk
  have h2 : applySteps fs ((a :: rest).take (j + 1))
      = applySteps (stepFS fs a) (rest.take j) := by
    simp [applySteps, List.take_succ_cons]
  rw [show (a :: rest).get? (j + 1) = rest.get? j from rfl, h2]

theorem planLoop_halt_run (halt : Nat → Bool) (total : Nat) :
    ∀ (m : Nat) (steps : List Json) (fs : FS) (i : Nat),
    m < steps.length →
    (∀ j, j < m → halt (i + j) = false) →
    halt (i + m) = true →
    (∀ j, j < m → stepOk fs steps j = true) →
    planLoop fs halt i total steps
      = (successTrace fs i total (steps.take m)
          ++ [Event.haltNotice (i + m + 1)],
         applySteps fs (steps.take m), Outcome.halted) := by
  intro m
  induction m with
  | zero =>
    intro steps fs i hlen _ hhit _
    cases steps with
    | nil => simp at hlen
    | cons a rest =>
      rw [show i + 0 = i from rfl] at hhit
      unfold planLoop
      rw [hhit]
      simp [successTrace, applySteps]
  | succ m ih =>
    intro steps fs i hlen hflat hhit hsucc
    cases steps with
    | nil => simp at hlen
    | cons a rest =>
      have h0 : halt i = false := by
        have := hflat 0 (Nat.succ_pos m)
        rwa [show i + 0 = i from rfl] at this
      obtain ⟨fields, ha, hexec⟩ := stepOk_zero fs a rest (hsucc 0 (Nat.succ_pos m))
      subst ha
      have hlen2 : m < rest.length := by
        simp [List.length_cons] at hlen; omega
      have hflat2 : ∀ j, j < m → halt (i + 1 + j) = false := by
        intro j hj
        have := hflat (j + 1) (Nat.succ_lt_succ hj)
        rwa [show i + (j + 1) = i + 1 + j by omega] at this
      have hhit2 : halt (i + 1 + m) = true := by
        have := hhit
        rwa [show i + (m + 1) = i + 1 + m by omega] at this
      have hsucc2 : ∀ j, j < m →
          stepOk ((execute_action fs fields).2.2) rest j = true := by
        intro j hj
        have := hsucc (j + 1) (Nat.succ_lt_succ hj)
        rwa [stepOk_cons] at this
      have hrec := ih rest ((execute_action fs fields).2.2) (i + 1)
        hlen2 hflat2 hhit2 hsucc2
      unfold planLoop
      rw [h0]
      simp only [Bool.false_eq_true, if_false, hexec, if_true, hrec]
      rw [List.take_succ_cons, successTrace]
      simp [applySteps, stepRes, stepFS, hexec]
      omega

theorem successTrace_echo_bound (total : Nat) :
    ∀ (as : List Json) (fs : FS) (i s t : Nat) (b : Json),
    Event.stepEcho s t b ∈ successTrace fs i total as →
    i + 1 ≤ s ∧ s ≤ i + as.length := by
  intro as
  induction as with
  | nil => intro fs i s t b h; simp [successTrace] at h
  | cons a rest ih =>
    intro fs i s t b h
    rw [successTrace] at h
    rcases List.mem_cons.mp h with he | h2
    · injection he with h1 h2 h3
      subst h1
      simp only [List.length_cons]
      omega
    · rcases List.mem_cons.mp h2 with hr | h3
      · exact Event.noConfusion hr
      · have := ih (stepFS fs a) (i + 1) s t b h3
        simp only [List.length_cons]
        omega

/-- C2: if halt is requested before step k begins (reads 1..k-1 were
false, the read before step k is true) and steps 1..k-1 were dictionary
actions that succeeded, then the run emits exactly the plan header, the
echo/result pairs of steps 1..k-1, and a halt notice naming step k; the
filesystem is exactly the one produced by steps 1..k-1 (nothing rolled
back, and step k never mutated anything); and no step past k-1 is ever
echoed (attempted). -/
theorem halt_before_step_k (fs : FS) (halt : Nat → Bool) (langStr : String)
    (steps : List Json) (k : Nat)
    (hk1 : 1 ≤ k) (hk2 : k ≤ steps.length)
    (hflat : ∀ j, j < k - 1 → halt j = false)
    (hhit : halt (k - 1) = true)
    (hsucc : ∀ j, j < k - 1 → stepOk fs steps j = true) :
    runPlan fs halt langStr steps
      = (Event.planHeader steps.length langStr
          :: (successTrace fs 0 steps.length (steps.take (k - 1))
              ++ [Event.haltNotice k]),
         applySteps fs (steps.take (k - 1)))
    ∧ ∀ s t b, Event.stepEcho s t b ∈ (runPlan fs halt langStr steps).1 →
        s < k := by
  have h2 : ∀ j, j < k - 1 → halt (0 + j) = false := by
    intro j hj; rw [Nat.zero_add]; exact hflat j hj
  have h3 : halt (0 + (k - 1)) = true := by rw [Nat.zero_add]; exact hhit
  have hrun := planLoop_halt_run halt steps.length (k - 1) steps fs 0
    (by omega) h2 h3 hsucc
  have hk' : 0 + (k - 1) + 1 = k := by omega
  rw [hk'] at hrun
  have hmain : runPlan fs halt langStr steps
      = (Event.planHeader steps.length langStr
          :: (successTrace fs 0 steps.length (steps.take (k - 1))
              ++ [Event.haltNotice k]),
         applySteps fs (steps.take (k - 1))) := by
    unfold runPlan
    rw [hrun]
    simp
  refine ⟨hmain, ?_⟩
  intro s t b hmem
  rw [hmain] at hmem
  rcases List.mem_cons.mp hmem with he | h4
  · exact Event.noConfusion he
  · rcases List.mem_append.mp h4 with h5 | h6
    · have := successTrace_echo_bound steps.length (steps.take (k - 1)) fs 0 s t b h5
      have hlt : (steps.take (k - 1)).length ≤ k - 1 := by
        simp [List.length_take]
      omega
    · rcases List.mem_singleton.mp h6 with h7
      exact Event.noConfusion h7

/-- The halt schedule used by loop witnesses: false for the first read,
true afterwards. -/
def haltAfterOne : Nat → Bool := fun j => !(j == 0)

/-- Two concrete dictionary steps. -/
def stepA : Json := Json.obj [("type", Json.str "create_folder"), ("path", Json.str "a")]

/-- A step with an unknown action type (it fails when executed). -/
def stepBad : Json := Json.obj [("type", Json.str "bogus"), ("path", Json.str "b")]

theorem halt_before_step_k_witness :
    runPlan [] haltAfterOne "N/A" [stepA, stepA]
      = (Event.planHeader 2 "N/A"
          :: (successTrace [] 0 2 ([stepA, stepA].take 1)
              ++ [Event.haltNotice 2]),
         applySteps [] ([stepA, stepA].take 1)) :=
  (halt_before_step_k [] haltAfterOne "N/A" [stepA, stepA] 2
    (by decide) (by decide)
    (by intro j hj; have hj0 : j = 0 := by omega
        subst hj0; rfl)
    rfl
    (by intro j hj; have hj0 : j = 0 := by omega
        subst hj0; decide)).1

theorem planLoop_fail_run (halt : Nat → Bool) (total : Nat) :
    ∀ (m : Nat) (steps : List Json) (fs : FS) (i : Nat)
      (fields : List (String × Json)),
    steps.get? m = some (Json.obj fields) →
    (∀ j, j ≤ m → halt (i + j) = false) →
    (∀ j, j < m → stepOk fs steps j = true) →
    (execute_action (applySteps fs (steps.take m)) fields).1 = false →
    planLoop fs halt i total steps
      = (successTrace fs i total (steps.take m)
          ++ [Event.stepEcho (i + m + 1) total (Json.obj fields),
              Event.stepResult (i + m + 1) false
                (execute_action (applySteps fs (steps.take m)) fields).2.1,
              Event.stoppingPlan],
         (execute_action (applySteps fs (steps.take m)) fields).2.2,
         Outcome.failed) := by
  intro m
  induction m with
  | zero =>
    intro steps fs i fields hget hnohalt _ hfail
    cases steps with
    | nil => simp at hget
    | cons a rest =>
      have ha : a = Json.obj fields := by
        rw [show (a :: rest).get? 0 = some a from rfl] at hget
        exact Option.some.inj hget
      subst ha
      have h0 : halt i = false := by
        have := hnohalt 0 (Nat.le_refl 0)
        rwa [show i + 0 = i from rfl] at this
      have hfail0 : (execute_action fs fields).1 = false := hfail
      unfold planLoop
      rw [h0]
      simp [successTrace, applySteps, hfail0]
  | succ m ih =>
    intro steps fs i fields hget hnohalt hsucc hfail
    cases steps with
    | nil => simp at hget
    | cons a rest =>
      have h0 : halt i = false := by
        have := hnohalt 0 (Nat.zero_le _)
        rwa [show i + 0 = i from rfl] at this
      obtain ⟨fields0, ha, hexec⟩ := stepOk_zero fs a rest (hsucc 0 (Nat.succ_pos m))
      subst ha
      have hget2 : rest.get? m = some (Json.obj fields) := hget
      have hnohalt2 : ∀ j, j ≤ m → halt (i + 1 + j) = false := by
        intro j hj
        have := hnohalt (j + 1) (Nat.succ_le_succ hj)
        rwa [show i + (j + 1) = i + 1 + j by omega] at this
      have hsucc2 : ∀ j, j < m →
          stepOk ((execute_action fs fields0).2.2) rest j = true := by
        intro j hj
        have := hsucc (j + 1) (Nat.succ_lt_succ hj)
        rwa [stepOk_cons] at this
      have hfail2 : (execute_action
          (applySteps ((execute_action fs fields0).2.2) (rest.take m)) fields).1
          = false := by
        have := hfail
        rwa [show applySteps fs ((Json.obj fields0 :: rest).take (m + 1))
            = applySteps ((execute_action fs fields0).2.2) (rest.take m) by
          simp [applySteps, List.take_succ_cons, stepFS, stepRes]] at this
      have hrec := ih rest ((execute_action fs fields0).2.2) (i + 1) fields
        hget2 hnohalt2 hsucc2 hfail2
      unfold planLoop
      rw [h0]
      simp only [Bool.false_eq_true, if_false, hexec, if_true, hrec]
      rw [List.take_succ_cons, successTrace]
      simp [applySteps, stepRes, stepFS, hexec]
      omega

/-- C3: if reads 1..k of the halt flag are false, steps 1..k-1 are
dictionary actions that succeed and step k is a dictionary action that
`execute_action` rejects, the run emits exactly the plan header, the
echo/result pairs of steps 1..k-1, the echo of step k, step k's failure
result, and the "stopping plan" event (with cancellation disabled); no
step past k is ever echoed, so exactly k steps are attempted. -/
theorem first_failure_stops_plan (fs : FS) (halt : Nat → Bool) (langStr : String)
    (steps : List Json) (k : Nat) (fields : List (String × Json))
    (hk1 : 1 ≤ k) (hk2 : k ≤ steps.length)
    (hnohalt : ∀ j, j < k → halt j = false)
    (hsucc : ∀ j, j < k - 1 → stepOk fs steps j = true)
    (hstep : steps.get? (k - 1) = some (Json.obj fields))
    (hfail : (execute_action (applySteps fs (steps.take (k - 1))) fields).1
      = false) :
    runPlan fs halt langStr steps
      = (Event.planHeader steps.length langStr
          :: (successTrace fs 0 steps.length (steps.take (k - 1))
              ++ [Event.stepEcho k steps.length (Json.obj fields),
                  Event.stepResult k false
                    (execute_action (applySteps fs (steps.take (k - 1)))
                      fields).2.1,
                  Event.stoppingPlan]),
         (execute_action (applySteps fs (steps.take (k - 1))) fields).2.2)
    ∧ Event.haltButtonEnabled Event.stoppingPlan = false
    ∧ (∀ s t b, Event.stepEcho s t b ∈ (runPlan fs halt langStr steps).1 →
        s ≤ k) := by
  have h2 : ∀ j, j ≤ k - 1 → halt (0 + j) = false := by
    intro j hj
    rw [Nat.zero_add]
    exact hnohalt j (by omega)
  have hrun := planLoop_fail_run halt steps.length (k - 1) steps fs 0 fields
    hstep h2 hsucc hfail
  have hk' : 0 + (k - 1) + 1 = k := by omega
  rw [hk'] at hrun
  have hmain : runPlan fs halt langStr steps
      = (Event.planHeader steps.length langStr
          :: (successTrace fs 0 steps.length (steps.take (k - 1))
              ++ [Event.stepEcho k steps.length (Json.obj fields),
                  Event.stepResult k false
                    (execute_action (applySteps fs (steps.take (k - 1)))
                      fields).2.1,
                  Event.stoppingPlan]),
         (execute_action (applySteps fs (steps.take (k - 1))) fields).2.2) := by
    unfold runPlan
    rw [hrun]
    simp
  refine ⟨hmain, rfl, ?_⟩
  intro s t b hmem
  rw [hmain] at hmem
  rcases List.mem_cons.mp hmem with he | h4
  · exact Event.noConfusion he
  · rcases List.mem_append.mp h4 with h5 | h6
    · have := successTrace_echo_bound steps.length (steps.take (k - 1)) fs 0 s t b h5
      have hlt : (steps.take (k - 1)).length ≤ k - 1 := by
        simp [List.length_take]
      omega
    · rcases List.mem_cons.mp h6 with h7 | h8
      · injection h7 with hs ht hb
        omega
      · rcases List.mem_cons.mp h8 with h9 | h10
        · exact Event.noConfusion h9
        · exact Event.noConfusion (List.mem_singleton.mp h10)

theorem first_failure_stops_plan_witness :
    runPlan [] (fun _ => false) "N/A" [stepA, stepBad]
      = (Event.planHeader 2 "N/A"
          :: (successTrace [] 0 2 ([stepA, stepBad].take 1)
              ++ [Event.stepEcho 2 2 stepBad,
                  Event.stepResult 2 false
                    (execute_action (applySteps [] ([stepA, stepBad].take 1))
                      [("type", Json.str "bogus"), ("path", Json.str "b")]).2.1,
                  Event.stoppingPlan]),
         (execute_action (applySteps [] ([stepA, stepBad].take 1))
           [("type", Json.str "bogus"), ("path", Json.str "b")]).2.2) :=
  (first_failure_stops_plan [] (fun _ => false) "N/A" [stepA, stepBad] 2
    [("type", Json.str "bogus"), ("path", Json.str "b")]
    (by decide) (by decide)
    (fun j hj => rfl)
    (by intro j hj; have hj0 : j = 0 := by omega
        subst hj0; decide)
    rfl
    (by decide)).1

/-! ## Terminal events come last -/

/-- No event before the last position is terminal. -/
def terminalOnlyLast : List Event → Bool
  | [] => true
  | e :: rest => (rest.isEmpty || !(Event.isTerminal e)) && terminalOnlyLast rest

theorem terminalOnlyLast_tail (x : Event) (rest : List Event)
    (h : terminalOnlyLast (x :: rest) = true) :
    terminalOnlyLast rest = true := by
  rw [terminalOnlyLast] at h
  exact (Bool.and_eq_true _ _ ▸ h).2

theorem terminalOnlyLast_cons (x : Event) (rest : List Event)
    (hx : Event.isTerminal x = false)
    (h : terminalOnlyLast rest = true) :
    terminalOnlyLast (x :: rest) = true := by
  rw [terminalOnlyLast, hx, h]
  simp

theorem terminalOnlyLast_append (y : Event) :
    ∀ (xs : List Event), (∀ e ∈ xs, Event.isTerminal e = false) →
    terminalOnlyLast (xs ++ [y]) = true := by
  intro xs
  induction xs with
  | nil => intro _; rfl
  | cons x rest ih =>
    intro h
    exact terminalOnlyLast_cons x (rest ++ [y])
      (h x (List.mem_cons_self x rest))
      (ih (fun e he => h e (List.mem_cons_of_mem x he)))

theorem terminalOnlyLast_last (evs : List Event) :
    terminalOnlyLast evs = true → ∀ l e r, evs = l ++ e :: r →
    Event.isTerminal e = true → r = [] := by
  induction evs with
  | nil =>
    intro _ l e r hsplit _
    cases l <;> simp at hsplit
  | cons x rest ih =>
    intro h l e r hsplit hterm
    cases l with
    | nil =>
      rw [List.nil_append] at hsplit
      injection hsplit with he hr
      subst he
      subst hr
      cases rest with
      | nil => rfl
      | cons z r2 =>
        rw [terminalOnlyLast] at h
        simp [hterm] at h
    | cons y l2 =>
      rw [List.cons_append] at hsplit
      injection hsplit with hxy hrest
      exact ih (terminalOnlyLast_tail x rest h) l2 e r hrest hterm

theorem planLoop_tol :
    ∀ (steps : List Json) (fs : FS) (halt : Nat → Bool) (i total : Nat),
    terminalOnlyLast (planLoop fs halt i total steps).1 = true
    ∧ ((planLoop fs halt i total steps).2.2 = Outcome.completedAll →
       ∀ e ∈ (planLoop fs halt i total steps).1, Event.isTerminal e = false) := by
  intro steps
  induction steps with
  | nil =>
    intro fs halt i total
    exact ⟨rfl, fun _ e he => absurd he (by simp [planLoop])⟩
  | cons a rest ih =>
    intro fs halt i total
    unfold planLoop
    cases hh : halt i with
    | true =>
      refine ⟨rfl, ?_⟩
      intro hout
      simp at hout
    | false =>
      cases a with
      | obj fields =>
        cases hr : (execute_action fs fields).1 with
        | false =>
          simp only [hr]
          refine ⟨rfl, ?_⟩
          intro hout
          simp at hout
        | true =>
          simp only [hr]
          obtain ⟨ih1, ih2⟩ := ih ((execute_action fs fields).2.2) halt (i + 1) total
          constructor
          · exact terminalOnlyLast_cons _ _ rfl (terminalOnlyLast_cons _ _ rfl ih1)
          · intro hout e he
            rcases List.mem_cons.mp he with h1 | h2
            · subst h1; rfl
            · rcases List.mem_cons.mp h2 with h3 | h4
              · subst h3; rfl
              · exact ih2 hout e h4
      | null =>
        refine ⟨rfl, ?_⟩
        intro hout
        simp at hout
      | bool b =>
        refine ⟨rfl, ?_⟩
        intro hout
        simp at hout
      | num n =>
        refine ⟨rfl, ?_⟩
        intro hout
        simp at hout
      | str s =>
        refine ⟨rfl, ?_⟩
        intro hout
        simp at hout
      | arr xs =>
        refine ⟨rfl, ?_⟩
        intro hout
        simp at hout

theorem runPlan_tol (fs : FS) (halt : Nat → Bool) (langStr : String)
    (steps : List Json) :
    terminalOnlyLast (runPlan fs halt langStr steps).1 = true := by
  unfold runPlan
  obtain ⟨h1, h2⟩ := planLoop_tol steps fs halt 0 steps.length
  cases hout : (planLoop fs halt 0 steps.length steps).2.2 with
  | completedAll =>
    simp only [hout]
    exact terminalOnlyLast_cons _ _ rfl
      (terminalOnlyLast_append Event.completed _ (h2 hout))
  | halted =>
    simp only [hout, List.append_nil]
    exact terminalOnlyLast_cons _ _ rfl h1
  | failed =>
    simp only [hout, List.append_nil]
    exact terminalOnlyLast_cons _ _ rfl h1
  | aborted =>
    simp only [hout, List.append_nil]
    exact terminalOnlyLast_cons _ _ rfl h1

theorem processParsed_tol (fs : FS) (halt : Nat → Bool) (v : Json) :
    terminalOnlyLast (processParsed fs halt v).1 = true := by
  unfold processParsed
  by_cases h1 : isStrVal (responseTypeOf v) "plan" = true
  · rw [if_pos h1]
    cases hsteps : planStepsOf v with
    | arr xs =>
      cases xs with
      | nil => rfl
      | cons s0 srest =>
        cases hl : allStrings (readLanguages v) with
        | none => rfl
        | some langs => exact runPlan_tol fs halt (langString langs) (s0 :: srest)
    | null => rfl
    | bool b => rfl
    | num n => rfl
    | str s => rfl
    | obj f => rfl
  · rw [if_neg h1]
    by_cases h2 : isStrVal (responseTypeOf v) "informational" = true
    · rw [if_pos h2]; rfl
    · rw [if_neg h2]; rfl

theorem agent_tol (jp : String → Option Json) (fs : FS) (halt : Nat → Bool)
    (raw : String) :
    terminalOnlyLast (agent_chat_response jp fs halt raw).1 = true := by
  unfold agent_chat_response
  cases hp : parseResponse jp raw with
  | error pe => rfl
  | ok v =>
    exact terminalOnlyLast_cons Event.thinking (processParsed fs halt v).1 rfl
      (processParsed_tol fs halt v)

/-- C4: once a terminal notice — a halt notice, the "stopping plan" event,
or the completion event — appears in a turn's event stream, it is the
last event of that stream: no further progress events follow it. -/
theorem terminal_event_is_last (jp : String → Option Json) (fs : FS)
    (halt : Nat → Bool) (raw : String) (l r : List Event) (e : Event)
    (hsplit : (agent_chat_response jp fs halt raw).1 = l ++ e :: r)
    (hterm : Event.isTerminal e = true) : r = [] :=
  terminalOnlyLast_last (agent_chat_response jp fs halt raw).1
    (agent_tol jp fs halt raw) l e r hsplit hterm

/-- A response whose single plan step fails (its `type` is missing). -/
def onePlanBadStep : Json :=
  Json.obj [("response_type", Json.str "plan"),
            ("plan_steps", Json.arr [Json.obj []])]

theorem terminal_event_is_last_witness :
    ([] : List Event) = [] :=
  terminal_event_is_last (jpConst onePlanBadStep) [] (fun _ => false)
    "```json\nx\n```"
    [Event.thinking, Event.planHeader 1 "N/A",
     Event.stepEcho 1 1 (Json.obj []),
     Event.stepResult 1 false "Error: Action type or path missing."]
    [] Event.stoppingPlan rfl rfl
